import Mathlib

/-!
Verification of the tic-tac-toe game core.

The development shallowly embeds the game logic of the repository:

* `gameLogic.js` : `WIN_LINES`, `getWinner`, `isDraw`, `createEmptyBoard`
* `ai.js`        : `findWinningMove`, `pickComputerMove`
* `App.js`       : the session state machine (screen, mode, board, active
  player, the COM "thinking" flag, the monotone turn token and the single
  scheduled COM timeout), together with an event-step semantics that models
  the single-threaded event loop described in the design notes.

JavaScript arrays of the three square values are embedded as `List Cell`.
Reads `board[i]` are embedded as `List.getD i Cell.empty`: an out-of-range
read yields `undefined` in JavaScript, which is falsy exactly like the empty
string, and every falsy-vs-empty distinction below sits behind a
`length = 9` guard, so the default is only a placeholder.  Writes
`board[i] = v` are embedded as `jsArraySet`, which extends the list when the
index is out of range, exactly as a JavaScript element assignment extends
the array (the padding cells stand for the holes such an assignment leaves).
-/

/-- Value of one square: the empty string, the X mark, or the O mark. -/
inductive Cell : Type
  | empty : Cell
  | X : Cell
  | O : Cell
deriving DecidableEq, Repr, Fintype

/-- A JavaScript array of square values. -/
abbrev Board := List Cell

/-- All possible winning lines on a 3x3 board (indices 0-8), in the fixed
source order: three rows, three columns, two diagonals. -/
def WIN_LINES : List (Nat × Nat × Nat) :=
  [(0, 1, 2), (3, 4, 5), (6, 7, 8),
   (0, 3, 6), (1, 4, 7), (2, 5, 8),
   (0, 4, 8), (2, 4, 6)]

/-- Embedding of `getWinner` from `gameLogic.js`: scan the eight win lines
and return the first whose three cells hold the same non-empty value,
together with that line; return `none` when the board length is not 9 or no
line matches. -/
def getWinner (board : Board) : Option (Cell × (Nat × Nat × Nat)) :=
  if board.length ≠ 9 then none
  else
    WIN_LINES.findSome? fun t =>
      let v := board.getD t.1 Cell.empty
      if v != Cell.empty && v == board.getD t.2.1 Cell.empty
          && v == board.getD t.2.2 Cell.empty then
        some (v, t)
      else
        none

/-- Embedding of `isDraw` from `gameLogic.js`: false when the length is not
9 or a winner exists, otherwise true iff every square is X or O. -/
def isDraw (board : Board) : Bool :=
  if board.length ≠ 9 then false
  else if (getWinner board).isSome then false
  else board.all fun sq => sq == Cell.X || sq == Cell.O

/-- Embedding of `createEmptyBoard` from `gameLogic.js`. -/
def createEmptyBoard : Board :=
  List.replicate 9 Cell.empty

/-- Outcome of a board, as in the specification: no result yet, a win with
its symbol and line, or a draw. -/
inductive Outcome : Type
  | noneYet : Outcome
  | win (s : Cell) (line : Nat × Nat × Nat) : Outcome
  | draw : Outcome
deriving DecidableEq, Repr

/-- The outcome evaluation of the specification, assembled from the two
source functions exactly as the rendering layer consumes them: a winner
takes precedence, then the draw test, otherwise no result yet. -/
def evaluateOutcome (board : Board) : Outcome :=
  match getWinner board with
  | some (s, t) => Outcome.win s t
  | none => if isDraw board then Outcome.draw else Outcome.noneYet

/-- Embedding of `findWinningMove` from `ai.js`: scan the win lines; for the
first line holding exactly two cells of `player` and exactly one empty cell,
return the board index of that empty cell.  The source computes
`line[values.findIndex(v => v === empty)]`; under the guard
`emptyCount = 1` that lookup always succeeds, and the `?? null` safety net
of the source is the unreachable `none` branch of the inner match. -/
def findWinningMove (board : Board) (player : Cell) : Option Nat :=
  WIN_LINES.findSome? fun t =>
    let line := [t.1, t.2.1, t.2.2]
    let values := line.map fun i => board.getD i Cell.empty
    let playerCount := (values.filter fun v => v == player).length
    let emptyCount := (values.filter fun v => v == Cell.empty).length
    if playerCount = 2 && emptyCount = 1 then
      match values.findIdx? fun v => v == Cell.empty with
      | some j => some (line.getD j 0)
      | none => none
    else
      none

/-- Steps 3-4 of `pickComputerMove` (center, then first available cell);
split out so that the early returns of the source function become plain
fallthroughs. -/
def pickComputerMoveCenter (board : Board) : Option Nat :=
  if board.getD 4 Cell.empty == Cell.empty then some 4
  else board.findIdx? fun v => v == Cell.empty

/-- Steps 2-4 of `pickComputerMove` (block, then center, then first
available cell). -/
def pickComputerMoveAfterWin (board : Board) (humanSymbol : Cell) : Option Nat :=
  match findWinningMove board humanSymbol with
  | some block =>
    if board.getD block Cell.empty == Cell.empty then some block
    else pickComputerMoveCenter board
  | none => pickComputerMoveCenter board

/-- Embedding of `pickComputerMove` from `ai.js`: reject boards whose length
is not 9, then try in order a winning move, a blocking move, the center,
and the first empty cell; `List.findIdx?` returns `none` exactly when the
source `findIndex` returns -1 and the source then returns null. -/
def pickComputerMove (board : Board) (comSymbol : Cell) : Option Nat :=
  if board.length ≠ 9 then none
  else
    let humanSymbol := if comSymbol == Cell.X then Cell.O else Cell.X
    match findWinningMove board comSymbol with
    | some win =>
      if board.getD win Cell.empty == Cell.empty then some win
      else pickComputerMoveAfterWin board humanSymbol
    | none => pickComputerMoveAfterWin board humanSymbol

/-- Which top-level screen is rendered, as the `screen` state of `App.js`. -/
inductive Screen : Type
  | start : Screen
  | game : Screen
deriving DecidableEq, Repr

/-- Game mode, as the `mode` state of `App.js` (hvh or hvc). -/
inductive Mode : Type
  | hvh : Mode
  | hvc : Mode
deriving DecidableEq, Repr

/-- The session state of `App.js`: the five pieces of component state that
the game core owns, plus the two refs used by the COM move scheduler.
`pending` is `some t` exactly when a COM timeout is currently scheduled and
not yet fired nor cleared, where `t` is the token the callback captured;
`comTurnToken` is the current value of `comTurnTokenRef`. -/
structure Session : Type where
  screen : Screen
  mode : Option Mode
  board : Board
  activePlayer : Cell
  isComThinking : Bool
  comTurnToken : Nat
  pending : Option Nat
deriving DecidableEq, Repr

/-- The fixed symbol of the automated player (`comSymbol` in `App.js`). -/
def comSymbol : Cell := Cell.O

/-- Embedding of `isComMode` from `App.js`. -/
def isComMode (s : Session) : Bool := s.mode == some Mode.hvc

/-- Embedding of `isComTurn` from `App.js`. -/
def isComTurn (s : Session) : Bool := isComMode s && s.activePlayer == comSymbol

/-- Embedding of `gameEnded` from `App.js`: a winner exists or the board is
a draw. -/
def gameEnded (s : Session) : Bool := (getWinner s.board).isSome || isDraw s.board

/-- JavaScript element assignment on an array of square values: in range it
replaces the element; past the end it extends the array so that the written
index becomes the last one, as `nextBoard[index] = v` does in `App.js`.
The padding stands for the holes such an assignment leaves; only the length
of an extended board is ever observed below. -/
def jsArraySet (l : Board) (i : Nat) (v : Cell) : Board :=
  if i < l.length then l.set i v
  else l ++ List.replicate (i - l.length) Cell.empty ++ [v]

/-- Embedding of `startGame` from `App.js`: bump the turn token, clear any
scheduled timeout, set the mode, enter the game screen, reset the board and
the active player, and clear the thinking flag. -/
def startGame (s : Session) (selectedMode : Mode) : Session :=
  { s with
    comTurnToken := s.comTurnToken + 1
    pending := none
    mode := some selectedMode
    screen := Screen.game
    board := createEmptyBoard
    activePlayer := Cell.X
    isComThinking := false }

/-- Embedding of `handleSquareClick` from `App.js`: a click is ignored after
the game ended, during the turn of the automated player in COM mode, and on
a cell holding a truthy value (an occupied cell; an out-of-range read is
falsy like the empty string); otherwise the cell receives the symbol of the
active player and the active player toggles. -/
def handleSquareClick (s : Session) (index : Nat) : Session :=
  if gameEnded s then s
  else if isComMode s && isComTurn s then s
  else if s.board.getD index Cell.empty != Cell.empty then s
  else
    let nextBoard := jsArraySet s.board index s.activePlayer
    { s with
      board := nextBoard
      activePlayer := if s.activePlayer == Cell.X then Cell.O else Cell.X }

/-- Embedding of `handleRestart` from `App.js`: bump the turn token, clear
any scheduled timeout, reset the board and the active player, clear the
thinking flag; screen and mode are untouched. -/
def handleRestart (s : Session) : Session :=
  { s with
    comTurnToken := s.comTurnToken + 1
    pending := none
    board := createEmptyBoard
    activePlayer := Cell.X
    isComThinking := false }

/-- Embedding of `handleBackToStart` from `App.js`: bump the turn token,
clear any scheduled timeout, return to the start screen, clear the mode,
reset the board and the active player, clear the thinking flag. -/
def handleBackToStart (s : Session) : Session :=
  { s with
    comTurnToken := s.comTurnToken + 1
    pending := none
    screen := Screen.start
    mode := none
    board := createEmptyBoard
    activePlayer := Cell.X
    isComThinking := false }

/-- Condition under which the COM effect of `App.js` schedules a move:
game screen, turn of the automated player, game not ended. -/
def shouldSchedule (s : Session) : Bool :=
  s.screen == Screen.game && isComTurn s && !gameEnded s

/-- One run of the COM scheduling effect of `App.js` (after the cleanup of
the previous run, whose only observable action, clearing the previous
timeout, is subsumed by the branches below): when a COM move is due, take a
fresh token, schedule the delayed callback under it and raise the thinking
flag; otherwise make sure nothing is scheduled and the flag is down. -/
def flushComEffect (s : Session) : Session :=
  if shouldSchedule s then
    { s with
      comTurnToken := s.comTurnToken + 1
      pending := some (s.comTurnToken + 1)
      isComThinking := true }
  else
    { s with pending := none, isComThinking := false }

/-- The dependency array of the COM scheduling effect in `App.js`
(`comSymbol` is constant and omitted): the effect re-runs after an event
exactly when one of these changed. -/
def effectDeps (s : Session) : Screen × Bool × Bool :=
  (s.screen, isComTurn s, gameEnded s)

/-- React flush after an event handler: re-run the COM effect iff its
dependencies changed, as the host framework does. -/
def withFlush (old new : Session) : Session :=
  if effectDeps old = effectDeps new then new else flushComEffect new

/-- Lines 275-286 of `App.js`: the move of the scheduled callback, with the
defensive fallback to the first empty cell when the policy result is
missing, out of range, or aimed at an occupied cell (`move < 0` cannot
arise for a natural number; `findIndex = -1` is the `none` of
`List.findIdx?`, and the source then applies no move). -/
def defensiveMove (board : Board) (com : Cell) : Option Nat :=
  match pickComputerMove board com with
  | some m =>
    if m > 8 || board.getD m Cell.empty != Cell.empty then
      board.findIdx? fun v => v == Cell.empty
    else some m
  | none => board.findIdx? fun v => v == Cell.empty

/-- Body of the delayed COM callback of `App.js` (lines 257-296), run when
the timer fires while the session is in state `s` and the callback captured
`myToken`: a stale token means no action at all; then the callback
re-validates the board length and the outcome, computes the move with the
defensive fallback, and either applies it (handing the turn back to X) or
merely clears the thinking flag.  The two token comparisons of the source
(before and inside the board update) collapse into one in this atomic
model. -/
def fireBody (s : Session) (myToken : Nat) : Session :=
  if s.comTurnToken != myToken then s
  else if s.board.length ≠ 9 then { s with isComThinking := false }
  else if (getWinner s.board).isSome || isDraw s.board then
    { s with isComThinking := false }
  else
    match defensiveMove s.board comSymbol with
    | none => { s with isComThinking := false }
    | some move =>
      { s with
        board := jsArraySet s.board move comSymbol
        activePlayer := Cell.X
        isComThinking := false }

/-- Events the session can process: the four user operations plus the
firing of the scheduled COM timer.  Square clicks carry the index the board
component produced. -/
inductive Event : Type
  | selectMode (m : Mode) : Event
  | click (i : Nat) : Event
  | restart : Event
  | backToStart : Event
  | fire : Event
deriving DecidableEq, Repr

/-- A square click followed by the React flush; split out because claims
speak about this composite for arbitrary indices. -/
def clickStep (s : Session) (i : Nat) : Session :=
  withFlush s (handleSquareClick s i)

/-- One event processed to completion by the single-threaded event loop:
the handler runs (guarded by the screen that actually renders its control,
and clicks carry one of the nine indices the board renders), then the
effect flush.  A timer fire consumes the scheduled unit and runs the
callback body under the token it captured. -/
def step (s : Session) (e : Event) : Session :=
  match e with
  | Event.selectMode m =>
    if s.screen = Screen.start then withFlush s (startGame s m) else s
  | Event.click i =>
    if s.screen = Screen.game ∧ i < 9 then clickStep s i else s
  | Event.restart =>
    if s.screen = Screen.game then withFlush s (handleRestart s) else s
  | Event.backToStart =>
    if s.screen = Screen.game then withFlush s (handleBackToStart s) else s
  | Event.fire =>
    match s.pending with
    | some tok => withFlush s (fireBody { s with pending := none } tok)
    | none => s

/-- Processing a list of events in order. -/
def steps (s : Session) : List Event → Session
  | [] => s
  | e :: es => steps (step s e) es

/-- The initial mount state of `App.js`: start screen, no mode, empty
board, X to start, not thinking, token 0, nothing scheduled. -/
def init : Session :=
  { screen := Screen.start
    mode := none
    board := createEmptyBoard
    activePlayer := Cell.X
    isComThinking := false
    comTurnToken := 0
    pending := none }

/-- A session state the application can actually be in. -/
def Reachable (s : Session) : Prop :=
  ∃ es : List Event, steps init es = s

/-- The session aggregate of the specification without the task token:
board, active player, mode, screen, and the pending-opponent-move boolean. -/
def sessionView (s : Session) : Board × Cell × Option Mode × Screen × Bool :=
  (s.board, s.activePlayer, s.mode, s.screen, s.pending.isSome)

/-- Wording of spec section 4.1: a win line all three of whose cells hold
the same non-empty symbol `s`. -/
def uniformNonEmpty (board : Board) (s : Cell) (t : Nat × Nat × Nat) : Prop :=
  s ≠ Cell.empty ∧ board.getD t.1 Cell.empty = s ∧
    board.getD t.2.1 Cell.empty = s ∧ board.getD t.2.2 Cell.empty = s

/-- Wording of spec section 4.2, rules 1 and 2: the line holds two cells
equal to `p` and one empty cell. -/
def lineTwoAndOneEmpty (board : Board) (p : Cell) (t : Nat × Nat × Nat) : Prop :=
  ((([t.1, t.2.1, t.2.2].map fun i => board.getD i Cell.empty).filter
      fun v => v == p).length = 2) ∧
  ((([t.1, t.2.1, t.2.2].map fun i => board.getD i Cell.empty).filter
      fun v => v == Cell.empty).length = 1)

instance (board : Board) (p : Cell) (t : Nat × Nat × Nat) :
    Decidable (lineTwoAndOneEmpty board p t) := by
  unfold lineTwoAndOneEmpty; infer_instance

/-- First-match characterisation of `List.findSome?`: it returns `some r`
iff the list splits into a failing prefix, a first succeeding element, and
a suffix. -/
theorem findSome?_eq_some_split {α β : Type} (f : α → Option β) :
    ∀ (L : List α) (r : β), L.findSome? f = some r ↔
      ∃ pre a suf, L = pre ++ a :: suf ∧ f a = some r ∧ ∀ x ∈ pre, f x = none := by
  intro L
  induction L with
  | nil =>
    intro r
    constructor
    · intro h; simp at h
    · rintro ⟨pre, a, suf, habs, -, -⟩
      exact absurd habs (by simp)
  | cons b t ih =>
    intro r
    rw [List.findSome?_cons]
    cases hfb : f b with
    | some v =>
      constructor
      · intro h
        exact ⟨[], b, t, rfl, by rw [hfb]; exact h, by simp⟩
      · rintro ⟨pre, a, suf, heq, hfa, hpre⟩
        cases pre with
        | nil =>
          simp only [List.nil_append, List.cons.injEq] at heq
          rw [heq.1] at hfb
          rw [hfb] at hfa
          exact hfa
        | cons q qs =>
          simp only [List.cons_append, List.cons.injEq] at heq
          have hq := hpre q (by simp)
          rw [← heq.1] at hq
          rw [hq] at hfb
          exact absurd hfb (by simp)
    | none =>
      rw [ih r]
      constructor
      · rintro ⟨pre, a, suf, heq, hfa, hpre⟩
        refine ⟨b :: pre, a, suf, by rw [heq]; rfl, hfa, ?_⟩
        intro x hx
        rcases List.mem_cons.mp hx with hxb | hxp
        · rw [hxb]; exact hfb
        · exact hpre x hxp
      · rintro ⟨pre, a, suf, heq, hfa, hpre⟩
        cases pre with
        | nil =>
          simp only [List.nil_append, List.cons.injEq] at heq
          rw [heq.1] at hfb
          rw [hfb] at hfa
          exact absurd hfa (by simp)
        | cons q qs =>
          simp only [List.cons_append, List.cons.injEq] at heq
          exact ⟨qs, a, suf, heq.2, hfa, fun x hx => hpre x (by simp [hx])⟩

/-- Per-line test of `getWinner`, named so the scan can be reasoned about
line by line; definitionally equal to the lambda inside `getWinner`. -/
def gwBody (board : Board) (t : Nat × Nat × Nat) : Option (Cell × (Nat × Nat × Nat)) :=
  let v := board.getD t.1 Cell.empty
  if v != Cell.empty && v == board.getD t.2.1 Cell.empty
      && v == board.getD t.2.2 Cell.empty then
    some (v, t)
  else
    none

theorem getWinner_eq_findSome (board : Board) (h9 : board.length = 9) :
    getWinner board = WIN_LINES.findSome? (gwBody board) := by
  unfold getWinner
  rw [if_neg (by simp [h9])]
  rfl

theorem gwBody_eq_some (board : Board) (t : Nat × Nat × Nat) (s : Cell)
    (u : Nat × Nat × Nat) :
    gwBody board t = some (s, u) ↔ uniformNonEmpty board s t ∧ u = t := by
  unfold gwBody uniformNonEmpty
  dsimp only
  split
  · rename_i hcond
    simp only [Bool.and_eq_true, bne_iff_ne, beq_iff_eq, ne_eq] at hcond
    obtain ⟨⟨hne, hb⟩, hc⟩ := hcond
    constructor
    · intro h
      rw [Option.some_inj, Prod.mk.injEq] at h
      obtain ⟨hs, hu⟩ := h
      exact ⟨⟨hs ▸ hne, hs, hs ▸ hb.symm, hs ▸ hc.symm⟩, hu.symm⟩
    · rintro ⟨⟨-, ha, -, -⟩, hu⟩
      rw [Option.some_inj, Prod.mk.injEq]
      exact ⟨ha, hu.symm⟩
  · rename_i hcond
    simp only [Bool.and_eq_true, bne_iff_ne, beq_iff_eq, ne_eq, not_and] at hcond
    constructor
    · intro h; exact absurd h (by simp)
    · rintro ⟨⟨hne, ha, hb, hc⟩, -⟩
      exact absurd (by rw [ha, hc]) (hcond ⟨by rw [ha]; exact hne, by rw [ha, hb]⟩)

theorem getWinner_eq_none_iff (board : Board) (h9 : board.length = 9) :
    getWinner board = none ↔ ∀ t ∈ WIN_LINES, ∀ s, ¬ uniformNonEmpty board s t := by
  rw [getWinner_eq_findSome board h9, List.findSome?_eq_none_iff]
  constructor
  · intro h t ht s hu
    have hn := h t ht
    have hs : gwBody board t = some (s, t) := (gwBody_eq_some board t s t).mpr ⟨hu, rfl⟩
    rw [hn] at hs
    exact absurd hs (by simp)
  · intro h t ht
    cases hgb : gwBody board t with
    | none => rfl
    | some p =>
      obtain ⟨s, u⟩ := p
      exact absurd ((gwBody_eq_some board t s u).mp hgb).1 (h t ht s)

theorem getWinner_eq_some_iff (board : Board) (h9 : board.length = 9)
    (s : Cell) (u : Nat × Nat × Nat) :
    getWinner board = some (s, u) ↔
      ∃ pre suf, WIN_LINES = pre ++ u :: suf ∧ uniformNonEmpty board s u ∧
        ∀ t ∈ pre, ∀ s2, ¬ uniformNonEmpty board s2 t := by
  rw [getWinner_eq_findSome board h9, findSome?_eq_some_split]
  constructor
  · rintro ⟨pre, a, suf, heq, hfa, hpre⟩
    obtain ⟨hu, ha⟩ := (gwBody_eq_some board a s u).mp hfa
    subst ha
    refine ⟨pre, suf, heq, hu, ?_⟩
    intro t ht s2 hu2
    have hn := hpre t ht
    have hs2 : gwBody board t = some (s2, t) := (gwBody_eq_some board t s2 t).mpr ⟨hu2, rfl⟩
    rw [hn] at hs2
    exact absurd hs2 (by simp)
  · rintro ⟨pre, suf, heq, hu, hpre⟩
    refine ⟨pre, u, suf, heq, (gwBody_eq_some board u s u).mpr ⟨hu, rfl⟩, ?_⟩
    intro x hx
    cases hgb : gwBody board x with
    | none => rfl
    | some p =>
      obtain ⟨s2, u2⟩ := p
      exact absurd ((gwBody_eq_some board x s2 u2).mp hgb).1 (hpre x hx s2)

theorem cell_nonempty_iff (c : Cell) :
    (c == Cell.X || c == Cell.O) = true ↔ c ≠ Cell.empty := by
  cases c <;> decide

theorem isDraw_eq_true_iff (board : Board) (h9 : board.length = 9) :
    isDraw board = true ↔ getWinner board = none ∧ ∀ c ∈ board, c ≠ Cell.empty := by
  unfold isDraw
  rw [if_neg (by simp [h9])]
  split
  · rename_i hw
    constructor
    · intro h; exact absurd h (by simp)
    · rintro ⟨hnone, -⟩
      rw [hnone] at hw
      exact absurd hw (by simp)
  · rename_i hw
    rw [List.all_eq_true]
    constructor
    · intro h
      refine ⟨?_, fun c hc => (cell_nonempty_iff c).mp (h c hc)⟩
      cases hgw : getWinner board with
      | none => rfl
      | some p => rw [hgw] at hw; exact absurd rfl hw
    · rintro ⟨-, hall⟩ c hc
      exact (cell_nonempty_iff c).mpr (hall c hc)

theorem evaluateOutcome_win_iff (board : Board) (s : Cell) (t : Nat × Nat × Nat) :
    evaluateOutcome board = Outcome.win s t ↔ getWinner board = some (s, t) := by
  unfold evaluateOutcome
  cases hgw : getWinner board with
  | some p =>
    obtain ⟨s2, t2⟩ := p
    simp
  | none =>
    dsimp only
    split <;> simp_all

theorem evaluateOutcome_draw_iff (board : Board) :
    evaluateOutcome board = Outcome.draw ↔
      getWinner board = none ∧ isDraw board = true := by
  unfold evaluateOutcome
  cases hgw : getWinner board with
  | some p =>
    obtain ⟨s2, t2⟩ := p
    simp
  | none =>
    dsimp only
    split <;> simp_all

theorem evaluateOutcome_noneYet_iff (board : Board) :
    evaluateOutcome board = Outcome.noneYet ↔
      getWinner board = none ∧ isDraw board = false := by
  unfold evaluateOutcome
  cases hgw : getWinner board with
  | some p =>
    obtain ⟨s2, t2⟩ := p
    simp
  | none =>
    dsimp only
    split <;> simp_all

/-- C1: for every board of exactly 9 cells the outcome evaluation yields
exactly one value of the `Outcome` variant; it is a win with symbol `s` and
line `t` only if `t` is the first win line in the fixed enumeration whose
three cells all hold the non-empty symbol `s`, and a win occurs whenever
some line is uniform and non-empty; it is a draw iff no win line is uniform
and non-empty and every cell is non-empty; and it is no result otherwise,
that is, iff no line matches and some cell is empty. -/
theorem evaluateOutcome_spec (board : Board) (h9 : board.length = 9) :
    (∀ s t, evaluateOutcome board = Outcome.win s t →
        ∃ pre suf, WIN_LINES = pre ++ t :: suf ∧ uniformNonEmpty board s t ∧
          ∀ u ∈ pre, ∀ s2, ¬ uniformNonEmpty board s2 u) ∧
    ((∃ t ∈ WIN_LINES, ∃ s, uniformNonEmpty board s t) →
        ∃ s t, evaluateOutcome board = Outcome.win s t) ∧
    (evaluateOutcome board = Outcome.draw ↔
        (∀ t ∈ WIN_LINES, ∀ s, ¬ uniformNonEmpty board s t) ∧
          ∀ c ∈ board, c ≠ Cell.empty) ∧
    (evaluateOutcome board = Outcome.noneYet ↔
        (∀ t ∈ WIN_LINES, ∀ s, ¬ uniformNonEmpty board s t) ∧
          ∃ c ∈ board, c = Cell.empty) := by
  refine ⟨?_, ?_, ?_, ?_⟩
  · intro s t h
    rw [evaluateOutcome_win_iff] at h
    exact (getWinner_eq_some_iff board h9 s t).mp h
  · rintro ⟨t, ht, s, hu⟩
    cases hgw : getWinner board with
    | some p =>
      obtain ⟨s2, t2⟩ := p
      exact ⟨s2, t2, (evaluateOutcome_win_iff board s2 t2).mpr hgw⟩
    | none =>
      exact absurd hu ((getWinner_eq_none_iff board h9).mp hgw t ht s)
  · rw [evaluateOutcome_draw_iff]
    constructor
    · rintro ⟨hnone, hdraw⟩
      exact ⟨(getWinner_eq_none_iff board h9).mp hnone,
        ((isDraw_eq_true_iff board h9).mp hdraw).2⟩
    · rintro ⟨hlines, hall⟩
      have hnone := (getWinner_eq_none_iff board h9).mpr hlines
      exact ⟨hnone, (isDraw_eq_true_iff board h9).mpr ⟨hnone, hall⟩⟩
  · rw [evaluateOutcome_noneYet_iff]
    constructor
    · rintro ⟨hnone, hfalse⟩
      refine ⟨(getWinner_eq_none_iff board h9).mp hnone, ?_⟩
      by_contra h
      push_neg at h
      have : isDraw board = true := (isDraw_eq_true_iff board h9).mpr ⟨hnone, h⟩
      rw [this] at hfalse
      exact absurd hfalse (by simp)
    · rintro ⟨hlines, c, hc, hce⟩
      have hnone := (getWinner_eq_none_iff board h9).mpr hlines
      refine ⟨hnone, ?_⟩
      cases hid : isDraw board with
      | false => rfl
      | true =>
        have := ((isDraw_eq_true_iff board h9).mp hid).2 c hc
        exact absurd hce this

theorem evaluateOutcome_spec_witness :
    ([Cell.X, Cell.X, Cell.X, Cell.O, Cell.O, Cell.empty, Cell.empty,
        Cell.empty, Cell.empty] : Board).length = 9 ∧
    ((∀ s t, evaluateOutcome [Cell.X, Cell.X, Cell.X, Cell.O, Cell.O,
          Cell.empty, Cell.empty, Cell.empty, Cell.empty] = Outcome.win s t →
        ∃ pre suf, WIN_LINES = pre ++ t :: suf ∧
          uniformNonEmpty [Cell.X, Cell.X, Cell.X, Cell.O, Cell.O, Cell.empty,
            Cell.empty, Cell.empty, Cell.empty] s t ∧
          ∀ u ∈ pre, ∀ s2, ¬ uniformNonEmpty [Cell.X, Cell.X, Cell.X, Cell.O,
            Cell.O, Cell.empty, Cell.empty, Cell.empty, Cell.empty] s2 u) ∧
    ((∃ t ∈ WIN_LINES, ∃ s, uniformNonEmpty [Cell.X, Cell.X, Cell.X, Cell.O,
          Cell.O, Cell.empty, Cell.empty, Cell.empty, Cell.empty] s t) →
        ∃ s t, evaluateOutcome [Cell.X, Cell.X, Cell.X, Cell.O, Cell.O,
          Cell.empty, Cell.empty, Cell.empty, Cell.empty] = Outcome.win s t) ∧
    (evaluateOutcome [Cell.X, Cell.X, Cell.X, Cell.O, Cell.O, Cell.empty,
          Cell.empty, Cell.empty, Cell.empty] = Outcome.draw ↔
        (∀ t ∈ WIN_LINES, ∀ s, ¬ uniformNonEmpty [Cell.X, Cell.X, Cell.X,
          Cell.O, Cell.O, Cell.empty, Cell.empty, Cell.empty, Cell.empty] s t) ∧
          ∀ c ∈ ([Cell.X, Cell.X, Cell.X, Cell.O, Cell.O, Cell.empty,
            Cell.empty, Cell.empty, Cell.empty] : Board), c ≠ Cell.empty) ∧
    (evaluateOutcome [Cell.X, Cell.X, Cell.X, Cell.O, Cell.O, Cell.empty,
          Cell.empty, Cell.empty, Cell.empty] = Outcome.noneYet ↔
        (∀ t ∈ WIN_LINES, ∀ s, ¬ uniformNonEmpty [Cell.X, Cell.X, Cell.X,
          Cell.O, Cell.O, Cell.empty, Cell.empty, Cell.empty, Cell.empty] s t) ∧
          ∃ c ∈ ([Cell.X, Cell.X, Cell.X, Cell.O, Cell.O, Cell.empty,
            Cell.empty, Cell.empty, Cell.empty] : Board), c = Cell.empty)) :=
  ⟨by decide, evaluateOutcome_spec _ (by decide)⟩

/-- Per-line test of `findWinningMove`, named so the scan can be reasoned
about line by line; definitionally equal to the lambda inside
`findWinningMove`. -/
def fwmBody (board : Board) (player : Cell) (t : Nat × Nat × Nat) : Option Nat :=
  let line := [t.1, t.2.1, t.2.2]
  let values := line.map fun i => board.getD i Cell.empty
  if (values.filter fun v => v == player).length = 2
      && (values.filter fun v => v == Cell.empty).length = 1 then
    match values.findIdx? fun v => v == Cell.empty with
    | some j => some (line.getD j 0)
    | none => none
  else
    none

theorem findWinningMove_eq_findSome (board : Board) (p : Cell) :
    findWinningMove board p = WIN_LINES.findSome? (fwmBody board p) := rfl

theorem fwmBody_eq_some (board : Board) (p : Cell) (t : Nat × Nat × Nat)
    (i : Nat) (h : fwmBody board p t = some i) :
    lineTwoAndOneEmpty board p t ∧ i ∈ [t.1, t.2.1, t.2.2] ∧
      board.getD i Cell.empty = Cell.empty := by
  unfold fwmBody at h
  unfold lineTwoAndOneEmpty
  simp only [List.map_cons, List.map_nil] at h ⊢
  rcases hva : board.getD t.1 Cell.empty with _ | _ | _ <;>
    rcases hvb : board.getD t.2.1 Cell.empty with _ | _ | _ <;>
      rcases hvc : board.getD t.2.2 Cell.empty with _ | _ | _ <;>
        simp only [hva, hvb, hvc] at h <;> cases p <;>
          simp_all

theorem fwmBody_of_twoOne (board : Board) (p : Cell) (t : Nat × Nat × Nat)
    (h : lineTwoAndOneEmpty board p t) : ∃ i, fwmBody board p t = some i := by
  unfold lineTwoAndOneEmpty at h
  unfold fwmBody
  simp only [List.map_cons, List.map_nil] at h ⊢
  rw [if_pos (by simp only [h.1, h.2]; decide)]
  cases hf : List.findIdx? (fun v => v == Cell.empty)
      [board.getD t.1 Cell.empty, board.getD t.2.1 Cell.empty,
        board.getD t.2.2 Cell.empty] with
  | some j => exact ⟨_, rfl⟩
  | none =>
    rw [List.findIdx?_eq_none_iff] at hf
    have hnil : List.filter (fun v => v == Cell.empty)
        [board.getD t.1 Cell.empty, board.getD t.2.1 Cell.empty,
          board.getD t.2.2 Cell.empty] = [] := by
      rw [List.filter_eq_nil_iff]
      intro a ha
      simp only [hf a ha]
      simp
    rw [hnil] at h
    exact absurd h.2 (by simp)

theorem findWinningMove_eq_some (board : Board) (p : Cell) (i : Nat)
    (h : findWinningMove board p = some i) :
    ∃ pre t suf, WIN_LINES = pre ++ t :: suf ∧ lineTwoAndOneEmpty board p t ∧
      (∀ u ∈ pre, ¬ lineTwoAndOneEmpty board p u) ∧
      i ∈ [t.1, t.2.1, t.2.2] ∧ board.getD i Cell.empty = Cell.empty := by
  rw [findWinningMove_eq_findSome, findSome?_eq_some_split] at h
  obtain ⟨pre, t, suf, heq, hft, hpre⟩ := h
  obtain ⟨h2, hmem, hempty⟩ := fwmBody_eq_some board p t i hft
  refine ⟨pre, t, suf, heq, h2, ?_, hmem, hempty⟩
  intro u hu h2u
  obtain ⟨j, hj⟩ := fwmBody_of_twoOne board p u h2u
  rw [hpre u hu] at hj
  exact absurd hj (by simp)

theorem findWinningMove_eq_none (board : Board) (p : Cell)
    (h : ∀ t ∈ WIN_LINES, ¬ lineTwoAndOneEmpty board p t) :
    findWinningMove board p = none := by
  rw [findWinningMove_eq_findSome, List.findSome?_eq_none_iff]
  intro t ht
  cases hf : fwmBody board p t with
  | none => rfl
  | some i => exact absurd (fwmBody_eq_some board p t i hf).1 (h t ht)

theorem findWinningMove_isSome_of_exists (board : Board) (p : Cell)
    (h : ∃ t ∈ WIN_LINES, lineTwoAndOneEmpty board p t) :
    ∃ i, findWinningMove board p = some i := by
  cases hf : findWinningMove board p with
  | some i => exact ⟨i, rfl⟩
  | none =>
    rw [findWinningMove_eq_findSome, List.findSome?_eq_none_iff] at hf
    obtain ⟨t, ht, h2⟩ := h
    obtain ⟨i, hi⟩ := fwmBody_of_twoOne board p t h2
    rw [hf t ht] at hi
    exact absurd hi (by simp)

theorem win_line_indices_lt (t : Nat × Nat × Nat) (ht : t ∈ WIN_LINES)
    (i : Nat) (hi : i ∈ [t.1, t.2.1, t.2.2]) : i < 9 := by
  revert i
  revert ht
  revert t
  decide

theorem findWinningMove_result_lt (board : Board) (p : Cell) (i : Nat)
    (h : findWinningMove board p = some i) :
    i < 9 ∧ board.getD i Cell.empty = Cell.empty := by
  obtain ⟨pre, t, suf, heq, -, -, hmem, hempty⟩ := findWinningMove_eq_some board p i h
  have ht : t ∈ WIN_LINES := heq ▸ List.mem_append_right pre (List.mem_cons_self t suf)
  exact ⟨win_line_indices_lt t ht i hmem, hempty⟩

theorem pickComputerMove_unfold (board : Board) (com : Cell)
    (h9 : board.length = 9) :
    pickComputerMove board com =
      match findWinningMove board com with
      | some win =>
        if board.getD win Cell.empty == Cell.empty then some win
        else pickComputerMoveAfterWin board
          (if com == Cell.X then Cell.O else Cell.X)
      | none => pickComputerMoveAfterWin board
          (if com == Cell.X then Cell.O else Cell.X) := by
  unfold pickComputerMove
  rw [if_neg (by simp [h9])]

theorem board_findIdx_empty_spec (board : Board) (i : Nat)
    (h : (board.findIdx? fun v => v == Cell.empty) = some i) :
    i < board.length ∧ board.getD i Cell.empty = Cell.empty ∧
      ∀ j < i, board.getD j Cell.empty ≠ Cell.empty := by
  rw [List.findIdx?_eq_some_iff_getElem] at h
  obtain ⟨hlt, hp, hlo⟩ := h
  refine ⟨hlt, ?_, ?_⟩
  · rw [List.getD_eq_getElem board Cell.empty hlt]
    exact beq_iff_eq.mp hp
  · intro j hj hempty
    have hjlt : j < board.length := lt_trans hj hlt
    have hnp := hlo j hj
    rw [List.getD_eq_getElem board Cell.empty hjlt] at hempty
    exact hnp (by rw [hempty]; simp)

theorem board_findIdx_empty_of_exists (board : Board)
    (h : ∃ c ∈ board, c = Cell.empty) :
    ∃ i, (board.findIdx? fun v => v == Cell.empty) = some i := by
  cases hf : board.findIdx? fun v => v == Cell.empty with
  | some i => exact ⟨i, rfl⟩
  | none =>
    rw [List.findIdx?_eq_none_iff] at hf
    obtain ⟨c, hc, hce⟩ := h
    have := hf c hc
    rw [hce] at this
    exact absurd this (by simp)

/-- C2: for a 9-cell board and a computer symbol, `pickComputerMove`
applies the four source rules in priority order, first applicable rule
wins.  Rule 1: when some win line holds two computer cells and one empty
cell, the move is the empty cell of the first such line, in the fixed
enumeration order (the line carries exactly one empty cell, so membership
in the line together with emptiness pins the cell down).  Rule 2: the same
with the symbol of the other player, when rule 1 does not apply.  Rule 3:
otherwise the center when it is empty — in particular the all-empty board
yields 4.  Rule 4: otherwise the lowest-indexed empty cell. -/
theorem pickComputerMove_priority (board : Board) (com : Cell)
    (h9 : board.length = 9) :
    ((∃ t ∈ WIN_LINES, lineTwoAndOneEmpty board com t) →
      ∃ pre t suf, WIN_LINES = pre ++ t :: suf ∧
        lineTwoAndOneEmpty board com t ∧
        (∀ u ∈ pre, ¬ lineTwoAndOneEmpty board com u) ∧
        ∃ i, pickComputerMove board com = some i ∧ i ∈ [t.1, t.2.1, t.2.2] ∧
          board.getD i Cell.empty = Cell.empty) ∧
    ((∀ t ∈ WIN_LINES, ¬ lineTwoAndOneEmpty board com t) →
      (∃ t ∈ WIN_LINES, lineTwoAndOneEmpty board
        (if com == Cell.X then Cell.O else Cell.X) t) →
      ∃ pre t suf, WIN_LINES = pre ++ t :: suf ∧
        lineTwoAndOneEmpty board (if com == Cell.X then Cell.O else Cell.X) t ∧
        (∀ u ∈ pre, ¬ lineTwoAndOneEmpty board
          (if com == Cell.X then Cell.O else Cell.X) u) ∧
        ∃ i, pickComputerMove board com = some i ∧ i ∈ [t.1, t.2.1, t.2.2] ∧
          board.getD i Cell.empty = Cell.empty) ∧
    ((∀ t ∈ WIN_LINES, ¬ lineTwoAndOneEmpty board com t) →
      (∀ t ∈ WIN_LINES, ¬ lineTwoAndOneEmpty board
        (if com == Cell.X then Cell.O else Cell.X) t) →
      board.getD 4 Cell.empty = Cell.empty →
      pickComputerMove board com = some 4) ∧
    ((∀ t ∈ WIN_LINES, ¬ lineTwoAndOneEmpty board com t) →
      (∀ t ∈ WIN_LINES, ¬ lineTwoAndOneEmpty board
        (if com == Cell.X then Cell.O else Cell.X) t) →
      board.getD 4 Cell.empty ≠ Cell.empty →
      (pickComputerMove board com = board.findIdx? fun v => v == Cell.empty) ∧
        ∀ i, pickComputerMove board com = some i →
          board.getD i Cell.empty = Cell.empty ∧
            ∀ j < i, board.getD j Cell.empty ≠ Cell.empty) ∧
    pickComputerMove createEmptyBoard com = some 4 := by
  refine ⟨?_, ?_, ?_, ?_, ?_⟩
  · intro hex
    obtain ⟨i, hi⟩ := findWinningMove_isSome_of_exists board com hex
    obtain ⟨pre, t, suf, heq, h2, hpre, hmem, hempty⟩ :=
      findWinningMove_eq_some board com i hi
    refine ⟨pre, t, suf, heq, h2, hpre, i, ?_, hmem, hempty⟩
    rw [pickComputerMove_unfold board com h9, hi]
    dsimp only
    rw [if_pos (by rw [beq_iff_eq]; exact hempty)]
  · intro hnone hex
    have hw := findWinningMove_eq_none board com hnone
    obtain ⟨i, hi⟩ := findWinningMove_isSome_of_exists board
      (if com == Cell.X then Cell.O else Cell.X) hex
    obtain ⟨pre, t, suf, heq, h2, hpre, hmem, hempty⟩ :=
      findWinningMove_eq_some board (if com == Cell.X then Cell.O else Cell.X) i hi
    refine ⟨pre, t, suf, heq, h2, hpre, i, ?_, hmem, hempty⟩
    rw [pickComputerMove_unfold board com h9, hw]
    unfold pickComputerMoveAfterWin
    rw [hi]
    dsimp only
    rw [if_pos (by rw [beq_iff_eq]; exact hempty)]
  · intro hnc hnh h4
    rw [pickComputerMove_unfold board com h9, findWinningMove_eq_none board com hnc]
    unfold pickComputerMoveAfterWin
    rw [findWinningMove_eq_none board _ hnh]
    unfold pickComputerMoveCenter
    rw [if_pos (by rw [beq_iff_eq]; exact h4)]
  · intro hnc hnh h4
    have hpick : pickComputerMove board com =
        board.findIdx? fun v => v == Cell.empty := by
      rw [pickComputerMove_unfold board com h9, findWinningMove_eq_none board com hnc]
      unfold pickComputerMoveAfterWin
      rw [findWinningMove_eq_none board _ hnh]
      unfold pickComputerMoveCenter
      rw [if_neg (by rw [beq_iff_eq]; exact h4)]
    refine ⟨hpick, ?_⟩
    intro i hi
    rw [hpick] at hi
    obtain ⟨-, he, hlo⟩ := board_findIdx_empty_spec board i hi
    exact ⟨he, hlo⟩
  · cases com <;> decide

theorem pickComputerMove_priority_witness :
    createEmptyBoard.length = 9 ∧
      pickComputerMove createEmptyBoard Cell.O = some 4 :=
  ⟨by decide, (pickComputerMove_priority createEmptyBoard Cell.O (by decide)).2.2.2.2⟩

theorem getD_mem (board : Board) (i : Nat) (h : i < board.length) :
    board.getD i Cell.empty ∈ board := by
  rw [List.getD_eq_getElem board Cell.empty h]
  exact List.getElem_mem h

theorem pickComputerMove_eq_some_legal (board : Board) (com : Cell) (i : Nat)
    (h9 : board.length = 9) (h : pickComputerMove board com = some i) :
    i ≤ 8 ∧ board.getD i Cell.empty = Cell.empty := by
  rw [pickComputerMove_unfold board com h9] at h
  cases hfw : findWinningMove board com with
  | some w =>
    rw [hfw] at h
    dsimp only at h
    obtain ⟨hlt, hemp⟩ := findWinningMove_result_lt board com w hfw
    have hcond : (board.getD w Cell.empty == Cell.empty) = true := by
      rw [beq_iff_eq]; exact hemp
    rw [if_pos hcond, Option.some_inj] at h
    subst h
    exact ⟨by omega, hemp⟩
  | none =>
    rw [hfw] at h
    dsimp only at h
    unfold pickComputerMoveAfterWin at h
    cases hfh : findWinningMove board (if com == Cell.X then Cell.O else Cell.X) with
    | some b =>
      rw [hfh] at h
      dsimp only at h
      obtain ⟨hlt, hemp⟩ := findWinningMove_result_lt board _ b hfh
      have hcond : (board.getD b Cell.empty == Cell.empty) = true := by
        rw [beq_iff_eq]; exact hemp
      rw [if_pos hcond, Option.some_inj] at h
      subst h
      exact ⟨by omega, hemp⟩
    | none =>
      rw [hfh] at h
      dsimp only at h
      unfold pickComputerMoveCenter at h
      by_cases h4 : board.getD 4 Cell.empty = Cell.empty
      · have hcond : (board.getD 4 Cell.empty == Cell.empty) = true := by
          rw [beq_iff_eq]; exact h4
        rw [if_pos hcond, Option.some_inj] at h
        subst h
        exact ⟨by omega, h4⟩
      · have hcond : ¬ (board.getD 4 Cell.empty == Cell.empty) = true := by
          rw [beq_iff_eq]; exact h4
        rw [if_neg hcond] at h
        obtain ⟨hlt, hemp, -⟩ := board_findIdx_empty_spec board i h
        rw [h9] at hlt
        exact ⟨by omega, hemp⟩

theorem pickComputerMove_eq_none_full (board : Board) (com : Cell)
    (h9 : board.length = 9) (h : pickComputerMove board com = none) :
    ∀ c ∈ board, c ≠ Cell.empty := by
  rw [pickComputerMove_unfold board com h9] at h
  cases hfw : findWinningMove board com with
  | some w =>
    rw [hfw] at h
    dsimp only at h
    obtain ⟨-, hemp⟩ := findWinningMove_result_lt board com w hfw
    have hcond : (board.getD w Cell.empty == Cell.empty) = true := by
      rw [beq_iff_eq]; exact hemp
    rw [if_pos hcond] at h
    exact absurd h (by simp)
  | none =>
    rw [hfw] at h
    dsimp only at h
    unfold pickComputerMoveAfterWin at h
    cases hfh : findWinningMove board (if com == Cell.X then Cell.O else Cell.X) with
    | some b =>
      rw [hfh] at h
      dsimp only at h
      obtain ⟨-, hemp⟩ := findWinningMove_result_lt board _ b hfh
      have hcond : (board.getD b Cell.empty == Cell.empty) = true := by
        rw [beq_iff_eq]; exact hemp
      rw [if_pos hcond] at h
      exact absurd h (by simp)
    | none =>
      rw [hfh] at h
      dsimp only at h
      unfold pickComputerMoveCenter at h
      by_cases h4 : board.getD 4 Cell.empty = Cell.empty
      · have hcond : (board.getD 4 Cell.empty == Cell.empty) = true := by
          rw [beq_iff_eq]; exact h4
        rw [if_pos hcond] at h
        exact absurd h (by simp)
      · have hcond : ¬ (board.getD 4 Cell.empty == Cell.empty) = true := by
          rw [beq_iff_eq]; exact h4
        rw [if_neg hcond] at h
        rw [List.findIdx?_eq_none_iff] at h
        intro c hc hce
        have := h c hc
        rw [hce] at this
        exact absurd this (by simp)

/-- C7: on a 9-cell board, `pickComputerMove` returns `none` exactly when
the board holds no empty cell; equivalently, whenever some cell is empty it
returns some index. -/
theorem pickComputerMove_none_iff_full (board : Board) (com : Cell)
    (h9 : board.length = 9) :
    (pickComputerMove board com = none ↔ ∀ c ∈ board, c ≠ Cell.empty) ∧
      ((∃ c ∈ board, c = Cell.empty) → (pickComputerMove board com).isSome) := by
  constructor
  · constructor
    · exact pickComputerMove_eq_none_full board com h9
    · intro hall
      cases hp : pickComputerMove board com with
      | none => rfl
      | some i =>
        obtain ⟨h8, hemp⟩ := pickComputerMove_eq_some_legal board com i h9 hp
        have hmem := getD_mem board i (by omega)
        rw [hemp] at hmem
        exact absurd rfl (hall Cell.empty hmem)
  · rintro ⟨c, hc, hce⟩
    cases hp : pickComputerMove board com with
    | some i => rfl
    | none =>
      have := pickComputerMove_eq_none_full board com h9 hp c hc
      exact absurd hce this

theorem pickComputerMove_none_iff_full_witness :
    createEmptyBoard.length = 9 ∧
      ((pickComputerMove createEmptyBoard Cell.O = none ↔
          ∀ c ∈ createEmptyBoard, c ≠ Cell.empty) ∧
        ((∃ c ∈ createEmptyBoard, c = Cell.empty) →
          (pickComputerMove createEmptyBoard Cell.O).isSome)) :=
  ⟨by decide, pickComputerMove_none_iff_full createEmptyBoard Cell.O (by decide)⟩

/-- C9: on a 9-cell board holding at least one empty cell,
`pickComputerMove` returns an index at most 8 whose cell is empty, and
therefore the defensive fallback of the move scheduler never fires: the
fallback computation returns exactly the policy result. -/
theorem pickComputerMove_legal_and_fallback_unreachable (board : Board)
    (com : Cell) (h9 : board.length = 9)
    (hex : ∃ c ∈ board, c = Cell.empty) :
    ∃ i, pickComputerMove board com = some i ∧ i ≤ 8 ∧
      board.getD i Cell.empty = Cell.empty ∧
      defensiveMove board com = pickComputerMove board com := by
  cases hp : pickComputerMove board com with
  | none =>
    obtain ⟨c, hc, hce⟩ := hex
    exact absurd hce (pickComputerMove_eq_none_full board com h9 hp c hc)
  | some i =>
    obtain ⟨h8, hemp⟩ := pickComputerMove_eq_some_legal board com i h9 hp
    refine ⟨i, rfl, h8, hemp, ?_⟩
    unfold defensiveMove
    rw [hp]
    dsimp only
    have hcond : ¬ (decide (i > 8) || board.getD i Cell.empty != Cell.empty) = true := by
      simp only [Bool.or_eq_true, not_or]
      constructor
      · simp only [decide_eq_true_eq]
        omega
      · rw [bne_iff_ne]
        simp only [ne_eq, not_not]
        exact hemp
    rw [if_neg hcond]

theorem pickComputerMove_legal_and_fallback_unreachable_witness :
    createEmptyBoard.length = 9 ∧ (∃ c ∈ createEmptyBoard, c = Cell.empty) ∧
      ∃ i, pickComputerMove createEmptyBoard Cell.O = some i ∧ i ≤ 8 ∧
        createEmptyBoard.getD i Cell.empty = Cell.empty ∧
        defensiveMove createEmptyBoard Cell.O =
          pickComputerMove createEmptyBoard Cell.O :=
  ⟨by decide, by decide,
    pickComputerMove_legal_and_fallback_unreachable createEmptyBoard Cell.O
      (by decide) (by decide)⟩

/-- C8 counterexample: a board of length 3 whose three cells are all X is
not rejected with an error by any of the three board-consuming operations;
each returns its ordinary no-result value (`getWinner` even returns the
same value as on a healthy empty board, so no failure is distinguishable at
the interface). -/
theorem invalid_board_returns_normal_values :
    getWinner [Cell.X, Cell.X, Cell.X] = none ∧
      isDraw [Cell.X, Cell.X, Cell.X] = false ∧
      pickComputerMove [Cell.X, Cell.X, Cell.X] Cell.X = none ∧
      getWinner [Cell.X, Cell.X, Cell.X] = getWinner createEmptyBoard ∧
      isDraw [Cell.X, Cell.X, Cell.X] = isDraw createEmptyBoard := by
  decide

/-- C8 amended: for every input whose length is not 9, the board-consuming
operations reject the input by returning their neutral values without
scanning any line — `getWinner` returns no winner, `isDraw` returns false,
`pickComputerMove` returns no move — rather than raising an error. -/
theorem non9_board_rejected_with_defaults (board : Board) (com : Cell)
    (h9 : board.length ≠ 9) :
    getWinner board = none ∧ isDraw board = false ∧
      pickComputerMove board com = none := by
  refine ⟨?_, ?_, ?_⟩
  · unfold getWinner
    rw [if_pos h9]
  · unfold isDraw
    rw [if_pos h9]
  · unfold pickComputerMove
    rw [if_pos h9]

theorem non9_board_rejected_with_defaults_witness :
    ([Cell.X, Cell.X, Cell.X] : Board).length ≠ 9 ∧
      (getWinner [Cell.X, Cell.X, Cell.X] = none ∧
        isDraw [Cell.X, Cell.X, Cell.X] = false ∧
        pickComputerMove [Cell.X, Cell.X, Cell.X] Cell.O = none) :=
  ⟨by decide, non9_board_rejected_with_defaults _ Cell.O (by decide)⟩

theorem createEmptyBoard_length : createEmptyBoard.length = 9 := by decide

theorem jsArraySet_length_of_lt (l : Board) (i : Nat) (v : Cell)
    (h : i < l.length) : (jsArraySet l i v).length = l.length := by
  unfold jsArraySet
  rw [if_pos h, List.length_set]

/-- State invariant maintained by every event: the board keeps its nine
cells; a scheduled callback always carries the current token; the thinking
flag is up exactly while a callback is scheduled; and scheduling only
exists on the game screen. -/
def SessionInv (s : Session) : Prop :=
  s.board.length = 9 ∧
    (∀ t, s.pending = some t → t = s.comTurnToken) ∧
    (s.isComThinking = true ↔ s.pending ≠ none) ∧
    (s.pending ≠ none → s.screen = Screen.game)

theorem SessionInv_init : SessionInv init := by
  refine ⟨by decide, ?_, ?_, ?_⟩ <;> simp [init]

theorem flushComEffect_inv (s : Session) (hb : s.board.length = 9) :
    SessionInv (flushComEffect s) := by
  unfold flushComEffect
  split
  · rename_i hs
    unfold shouldSchedule at hs
    simp only [Bool.and_eq_true, beq_iff_eq] at hs
    refine ⟨hb, ?_, ?_, ?_⟩
    · intro t ht
      exact (Option.some_inj.mp ht).symm
    · simp
    · intro _
      exact hs.1.1
  · exact ⟨hb, by simp, by simp, by simp⟩

theorem withFlush_inv (old new : Session) (hnew : SessionInv new) :
    SessionInv (withFlush old new) := by
  unfold withFlush
  split
  · exact hnew
  · exact flushComEffect_inv new hnew.1

theorem startGame_inv (s : Session) (m : Mode) : SessionInv (startGame s m) := by
  refine ⟨createEmptyBoard_length, ?_, ?_, ?_⟩ <;> simp [startGame]

theorem handleRestart_inv (s : Session) : SessionInv (handleRestart s) := by
  refine ⟨createEmptyBoard_length, ?_, ?_, ?_⟩ <;> simp [handleRestart]

theorem handleBackToStart_inv (s : Session) : SessionInv (handleBackToStart s) := by
  refine ⟨createEmptyBoard_length, ?_, ?_, ?_⟩ <;> simp [handleBackToStart]

theorem handleSquareClick_inv (s : Session) (i : Nat) (hi : i < 9)
    (hs : SessionInv s) : SessionInv (handleSquareClick s i) := by
  unfold handleSquareClick
  split
  · exact hs
  · split
    · exact hs
    · split
      · exact hs
      · refine ⟨?_, hs.2.1, hs.2.2.1, hs.2.2.2⟩
        have : i < s.board.length := by rw [hs.1]; exact hi
        rw [jsArraySet_length_of_lt s.board i s.activePlayer this]
        exact hs.1

theorem defensiveMove_lt (board : Board) (com : Cell) (m : Nat)
    (h9 : board.length = 9) (h : defensiveMove board com = some m) : m < 9 := by
  unfold defensiveMove at h
  cases hp : pickComputerMove board com with
  | some m0 =>
    rw [hp] at h
    dsimp only at h
    by_cases hc : (decide (m0 > 8) || board.getD m0 Cell.empty != Cell.empty) = true
    · rw [if_pos hc] at h
      have := (board_findIdx_empty_spec board m h).1
      omega
    · rw [if_neg hc] at h
      rw [Option.some_inj] at h
      subst h
      simp only [Bool.or_eq_true, not_or, decide_eq_true_eq] at hc
      obtain ⟨h8, -⟩ := hc
      omega
  | none =>
    rw [hp] at h
    dsimp only at h
    have := (board_findIdx_empty_spec board m h).1
    omega

theorem defensiveMove_none_all_full (board : Board) (com : Cell)
    (h : defensiveMove board com = none) : ∀ c ∈ board, c ≠ Cell.empty := by
  unfold defensiveMove at h
  cases hp : pickComputerMove board com with
  | some m0 =>
    rw [hp] at h
    dsimp only at h
    by_cases hc : (decide (m0 > 8) || board.getD m0 Cell.empty != Cell.empty) = true
    · rw [if_pos hc] at h
      rw [List.findIdx?_eq_none_iff] at h
      intro c hcm hce
      have := h c hcm
      rw [hce] at this
      exact absurd this (by simp)
    · rw [if_neg hc] at h
      exact absurd h (by simp)
  | none =>
    rw [hp] at h
    dsimp only at h
    rw [List.findIdx?_eq_none_iff] at h
    intro c hcm hce
    have := h c hcm
    rw [hce] at this
    exact absurd this (by simp)

theorem fireBody_stale (s : Session) (tok : Nat) (h : s.comTurnToken ≠ tok) :
    fireBody s tok = s := by
  unfold fireBody
  rw [if_pos (by rw [bne_iff_ne]; exact h)]

theorem fireBody_result (s : Session) (tok : Nat) (h9 : s.board.length = 9)
    (hpn : s.pending = none) (htok : s.comTurnToken = tok) :
    SessionInv (fireBody s tok) ∧ (fireBody s tok).isComThinking = false ∧
      shouldSchedule (fireBody s tok) = false := by
  unfold fireBody
  rw [if_neg (by rw [bne_iff_ne]; simp [htok])]
  rw [if_neg (by simp [h9])]
  by_cases hend : ((getWinner s.board).isSome || isDraw s.board) = true
  · rw [if_pos hend]
    refine ⟨⟨h9, ?_, ?_, ?_⟩, rfl, ?_⟩
    · intro t ht
      rw [hpn] at ht
      exact absurd ht (by simp)
    · simp [hpn]
    · simp [hpn]
    · unfold shouldSchedule gameEnded
      simp [hend]
  · rw [if_neg hend]
    cases hdm : defensiveMove s.board comSymbol with
    | none =>
      exfalso
      simp only [Bool.or_eq_true, not_or] at hend
      have hwn : getWinner s.board = none := by
        cases hgw : getWinner s.board with
        | none => rfl
        | some p =>
          rw [hgw] at hend
          exact absurd hend.1 (by simp)
      have hfull := defensiveMove_none_all_full s.board comSymbol hdm
      have : isDraw s.board = true := (isDraw_eq_true_iff s.board h9).mpr ⟨hwn, hfull⟩
      rw [this] at hend
      exact absurd hend.2 (by simp)
    | some m =>
      have hm : m < 9 := defensiveMove_lt s.board comSymbol m h9 hdm
      refine ⟨⟨?_, ?_, ?_, ?_⟩, rfl, ?_⟩
      · rw [jsArraySet_length_of_lt s.board m comSymbol (by omega), h9]
      · intro t ht
        rw [hpn] at ht
        exact absurd ht (by simp)
      · simp [hpn]
      · simp [hpn]
      · unfold shouldSchedule isComTurn isComMode
        simp [comSymbol]

theorem SessionInv_step (s : Session) (e : Event) (hs : SessionInv s) :
    SessionInv (step s e) := by
  cases e with
  | selectMode m =>
    dsimp only [step]
    split
    · exact withFlush_inv _ _ (startGame_inv s m)
    · exact hs
  | click i =>
    dsimp only [step]
    split
    · rename_i hg
      exact withFlush_inv _ _ (handleSquareClick_inv s i hg.2 hs)
    · exact hs
  | restart =>
    dsimp only [step]
    split
    · exact withFlush_inv _ _ (handleRestart_inv s)
    · exact hs
  | backToStart =>
    dsimp only [step]
    split
    · exact withFlush_inv _ _ (handleBackToStart_inv s)
    · exact hs
  | fire =>
    dsimp only [step]
    cases hp : s.pending with
    | none => exact hs
    | some tok =>
      have htok : tok = s.comTurnToken := hs.2.1 tok hp
      obtain ⟨hinv, -, -⟩ :=
        fireBody_result { s with pending := none } tok hs.1 rfl htok.symm
      exact withFlush_inv _ _ hinv

theorem SessionInv_steps (es : List Event) :
    ∀ s : Session, SessionInv s → SessionInv (steps s es) := by
  induction es with
  | nil => intro s hs; exact hs
  | cons e es ih =>
    intro s hs
    exact ih (step s e) (SessionInv_step s e hs)

theorem SessionInv_reachable (s : Session) (hr : Reachable s) : SessionInv s := by
  obtain ⟨es, hes⟩ := hr
  rw [← hes]
  exact SessionInv_steps es init SessionInv_init

theorem handleSquareClick_token (s : Session) (i : Nat) :
    (handleSquareClick s i).comTurnToken = s.comTurnToken := by
  unfold handleSquareClick
  split
  · rfl
  · split
    · rfl
    · split
      · rfl
      · rfl

theorem fireBody_token (s : Session) (tok : Nat) :
    (fireBody s tok).comTurnToken = s.comTurnToken := by
  unfold fireBody
  split
  · rfl
  · split
    · rfl
    · split
      · rfl
      · split
        · rfl
        · rfl

theorem flushComEffect_token_le (s : Session) :
    s.comTurnToken ≤ (flushComEffect s).comTurnToken := by
  unfold flushComEffect
  split
  · exact Nat.le_succ _
  · exact Nat.le_refl _

theorem withFlush_token_le (old new : Session) :
    new.comTurnToken ≤ (withFlush old new).comTurnToken := by
  unfold withFlush
  split
  · exact Nat.le_refl _
  · exact flushComEffect_token_le new

theorem step_token_le (s : Session) (e : Event) :
    s.comTurnToken ≤ (step s e).comTurnToken := by
  cases e with
  | selectMode m =>
    dsimp only [step]
    split
    · exact Nat.le_trans (Nat.le_succ _) (withFlush_token_le s (startGame s m))
    · exact Nat.le_refl _
  | click i =>
    dsimp only [step]
    split
    · unfold clickStep
      have h := withFlush_token_le s (handleSquareClick s i)
      rw [handleSquareClick_token s i] at h
      exact h
    · exact Nat.le_refl _
  | restart =>
    dsimp only [step]
    split
    · exact Nat.le_trans (Nat.le_succ _) (withFlush_token_le s (handleRestart s))
    · exact Nat.le_refl _
  | backToStart =>
    dsimp only [step]
    split
    · exact Nat.le_trans (Nat.le_succ _) (withFlush_token_le s (handleBackToStart s))
    · exact Nat.le_refl _
  | fire =>
    dsimp only [step]
    cases hp : s.pending with
    | none => exact Nat.le_refl _
    | some tok =>
      have h := withFlush_token_le s (fireBody { s with pending := none } tok)
      rw [fireBody_token { s with pending := none } tok] at h
      exact h

theorem steps_token_le (es : List Event) :
    ∀ s : Session, s.comTurnToken ≤ (steps s es).comTurnToken := by
  induction es with
  | nil => intro s; exact Nat.le_refl _
  | cons e es ih =>
    intro s
    exact Nat.le_trans (step_token_le s e) (ih (step s e))

theorem withFlush_thinking_false (old new : Session)
    (hns : shouldSchedule new = false) (ht : new.isComThinking = false) :
    (withFlush old new).isComThinking = false := by
  unfold withFlush
  split
  · exact ht
  · unfold flushComEffect
    rw [if_neg (by simp [hns])]

theorem shouldSchedule_handleRestart (s : Session) :
    shouldSchedule (handleRestart s) = false := by
  unfold shouldSchedule isComTurn isComMode handleRestart comSymbol
  simp

theorem shouldSchedule_handleBackToStart (s : Session) :
    shouldSchedule (handleBackToStart s) = false := by
  unfold shouldSchedule handleBackToStart
  simp

theorem shouldSchedule_startGame (s : Session) (m : Mode) :
    shouldSchedule (startGame s m) = false := by
  unfold shouldSchedule isComTurn isComMode startGame comSymbol
  simp

theorem thinking_false_of_pending_none (s : Session)
    (h3 : s.isComThinking = true ↔ s.pending ≠ none) (hp : s.pending = none) :
    s.isComThinking = false := by
  cases ht : s.isComThinking with
  | false => rfl
  | true =>
    have := h3.mp ht
    rw [hp] at this
    exact absurd rfl this

theorem withFlush_handleRestart (s : Session) :
    withFlush s (handleRestart s) = handleRestart s := by
  unfold withFlush
  split
  · rfl
  · unfold flushComEffect
    rw [if_neg (by simp [shouldSchedule_handleRestart s])]
    cases s
    rfl

theorem withFlush_handleBackToStart (s : Session) :
    withFlush s (handleBackToStart s) = handleBackToStart s := by
  unfold withFlush
  split
  · rfl
  · unfold flushComEffect
    rw [if_neg (by simp [shouldSchedule_handleBackToStart s])]
    cases s
    rfl

theorem withFlush_startGame (s : Session) (m : Mode) :
    withFlush s (startGame s m) = startGame s m := by
  unfold withFlush
  split
  · rfl
  · unfold flushComEffect
    rw [if_neg (by simp [shouldSchedule_startGame s m])]
    cases s
    rfl

/-- C5: a square click is a silent no-op, leaving the whole session state
(board, active player, mode, screen, thinking flag, token, scheduled unit)
unchanged and raising no error (the handler is a total function), whenever
the game has ended, or it is the turn of the automated player in computer
mode, or the target cell is occupied. -/
theorem handleSquareClick_noop (s : Session) (i : Nat)
    (h : gameEnded s = true ∨ (isComMode s && isComTurn s) = true ∨
      s.board.getD i Cell.empty ≠ Cell.empty) :
    clickStep s i = s := by
  have hclick : handleSquareClick s i = s := by
    unfold handleSquareClick
    rcases h with h | h | h
    · rw [if_pos h]
    · by_cases hge : gameEnded s = true
      · rw [if_pos hge]
      · rw [if_neg hge, if_pos h]
    · by_cases hge : gameEnded s = true
      · rw [if_pos hge]
      · rw [if_neg hge]
        by_cases hct : (isComMode s && isComTurn s) = true
        · rw [if_pos hct]
        · rw [if_neg hct, if_pos (by rw [bne_iff_ne]; exact h)]
  unfold clickStep
  rw [hclick]
  unfold withFlush
  rw [if_pos rfl]

theorem handleSquareClick_noop_witness :
    gameEnded ⟨Screen.game, some Mode.hvh,
        [Cell.X, Cell.X, Cell.X, Cell.O, Cell.O, Cell.empty, Cell.empty,
          Cell.empty, Cell.empty], Cell.O, false, 0, none⟩ = true ∧
      clickStep ⟨Screen.game, some Mode.hvh,
          [Cell.X, Cell.X, Cell.X, Cell.O, Cell.O, Cell.empty, Cell.empty,
            Cell.empty, Cell.empty], Cell.O, false, 0, none⟩ 5 =
        ⟨Screen.game, some Mode.hvh,
          [Cell.X, Cell.X, Cell.X, Cell.O, Cell.O, Cell.empty, Cell.empty,
            Cell.empty, Cell.empty], Cell.O, false, 0, none⟩ :=
  ⟨by decide, handleSquareClick_noop _ 5 (Or.inl (by decide))⟩

/-- C4 counterexample: `handleSquareClick` called with the out-of-range
index 9 on a fresh human-vs-human session does not preserve the nine-cell
board: the JavaScript element assignment extends the array to length 10. -/
theorem board_length_not_preserved_out_of_range :
    (steps init [Event.selectMode Mode.hvh]).board.length = 9 ∧
      (clickStep (steps init [Event.selectMode Mode.hvh]) 9).board.length = 10 := by
  decide

/-- C4 amended: restricted to the indices the board component can produce
(0 to 8, enforced by the event model), every session operation preserves
the nine-cell board: every reachable session state has a board of length
exactly 9, and one further step of any event keeps it so. -/
theorem session_board_length_9 (s : Session) (hr : Reachable s) :
    s.board.length = 9 ∧ ∀ e : Event, (step s e).board.length = 9 :=
  ⟨(SessionInv_reachable s hr).1,
    fun e => (SessionInv_step s e (SessionInv_reachable s hr)).1⟩

theorem session_board_length_9_witness :
    Reachable init ∧
      (init.board.length = 9 ∧ ∀ e : Event, (step init e).board.length = 9) :=
  ⟨⟨[], rfl⟩, session_board_length_9 init ⟨[], rfl⟩⟩

/-- C6: in every reachable session state the thinking flag is raised
exactly while a scheduled, unfired, uncancelled callback for the current
token exists; and it is down immediately after a restart, a return to the
start screen, or a timer firing. -/
theorem thinking_iff_scheduled (s : Session) (hr : Reachable s) :
    (s.isComThinking = true ↔ s.pending = some s.comTurnToken) ∧
      (step s Event.restart).isComThinking = false ∧
      (step s Event.backToStart).isComThinking = false ∧
      (step s Event.fire).isComThinking = false := by
  obtain ⟨h9, h2, h3, h4⟩ := SessionInv_reachable s hr
  refine ⟨?_, ?_, ?_, ?_⟩
  · constructor
    · intro ht
      have hpne := h3.mp ht
      cases hpv : s.pending with
      | none => exact absurd hpv hpne
      | some t => exact congrArg some (h2 t hpv)
    · intro hp
      exact h3.mpr (by rw [hp]; simp)
  · dsimp only [step]
    split
    · exact withFlush_thinking_false s (handleRestart s)
        (shouldSchedule_handleRestart s) rfl
    · rename_i hscr
      cases hpv : s.pending with
      | none => exact thinking_false_of_pending_none s h3 hpv
      | some t => exact absurd (h4 (by rw [hpv]; simp)) hscr
  · dsimp only [step]
    split
    · exact withFlush_thinking_false s (handleBackToStart s)
        (shouldSchedule_handleBackToStart s) rfl
    · rename_i hscr
      cases hpv : s.pending with
      | none => exact thinking_false_of_pending_none s h3 hpv
      | some t => exact absurd (h4 (by rw [hpv]; simp)) hscr
  · dsimp only [step]
    cases hpv : s.pending with
    | none => exact thinking_false_of_pending_none s h3 hpv
    | some tok =>
      obtain ⟨-, hthink, hsched⟩ :=
        fireBody_result { s with pending := none } tok h9 rfl (h2 tok hpv).symm
      exact withFlush_thinking_false s _ hsched hthink

theorem thinking_iff_scheduled_witness :
    Reachable ⟨Screen.game, some Mode.hvc,
        [Cell.X, Cell.empty, Cell.empty, Cell.empty, Cell.empty, Cell.empty,
          Cell.empty, Cell.empty, Cell.empty], Cell.O, true, 2, some 2⟩ ∧
      ((( ⟨Screen.game, some Mode.hvc,
          [Cell.X, Cell.empty, Cell.empty, Cell.empty, Cell.empty, Cell.empty,
            Cell.empty, Cell.empty, Cell.empty], Cell.O, true, 2,
          some 2⟩ : Session).isComThinking = true ↔
        (⟨Screen.game, some Mode.hvc,
          [Cell.X, Cell.empty, Cell.empty, Cell.empty, Cell.empty, Cell.empty,
            Cell.empty, Cell.empty, Cell.empty], Cell.O, true, 2,
          some 2⟩ : Session).pending = some (⟨Screen.game, some Mode.hvc,
          [Cell.X, Cell.empty, Cell.empty, Cell.empty, Cell.empty, Cell.empty,
            Cell.empty, Cell.empty, Cell.empty], Cell.O, true, 2,
          some 2⟩ : Session).comTurnToken) ∧
      (step ⟨Screen.game, some Mode.hvc,
          [Cell.X, Cell.empty, Cell.empty, Cell.empty, Cell.empty, Cell.empty,
            Cell.empty, Cell.empty, Cell.empty], Cell.O, true, 2, some 2⟩
        Event.restart).isComThinking = false ∧
      (step ⟨Screen.game, some Mode.hvc,
          [Cell.X, Cell.empty, Cell.empty, Cell.empty, Cell.empty, Cell.empty,
            Cell.empty, Cell.empty, Cell.empty], Cell.O, true, 2, some 2⟩
        Event.backToStart).isComThinking = false ∧
      (step ⟨Screen.game, some Mode.hvc,
          [Cell.X, Cell.empty, Cell.empty, Cell.empty, Cell.empty, Cell.empty,
            Cell.empty, Cell.empty, Cell.empty], Cell.O, true, 2, some 2⟩
        Event.fire).isComThinking = false) :=
  ⟨⟨[Event.selectMode Mode.hvc, Event.click 0], by decide⟩,
    thinking_iff_scheduled _ ⟨[Event.selectMode Mode.hvc, Event.click 0], by decide⟩⟩

/-- C10 counterexample: the session aggregate of the specification includes
the task token, and `handleRestart` bumps the token unconditionally, so two
consecutive restarts from a fresh human-vs-human session do not end in the
same session state as one restart (the tokens differ by one). -/
theorem restart_twice_token_differs :
    steps init [Event.selectMode Mode.hvh, Event.restart, Event.restart] ≠
      steps init [Event.selectMode Mode.hvh, Event.restart] := by
  decide

/-- C10 amended: calling restart twice in a row yields the same
fresh-session state both times on every component of the session aggregate
except the monotone task token (which grows on every call): board, active
player, mode, screen, and the pending-opponent-move boolean agree, with an
all-empty board and X as the active player. -/
theorem restart_idempotent_view (s : Session) :
    sessionView (step (step s Event.restart) Event.restart) =
      sessionView (step s Event.restart) := by
  have h1 : step s Event.restart =
      if s.screen = Screen.game then handleRestart s else s := by
    dsimp only [step]
    rw [withFlush_handleRestart]
  by_cases hscr : s.screen = Screen.game
  · rw [h1, if_pos hscr]
    have h2 : step (handleRestart s) Event.restart =
        handleRestart (handleRestart s) := by
      dsimp only [step]
      rw [if_pos (show (handleRestart s).screen = Screen.game from hscr),
        withFlush_handleRestart]
    rw [h2]
    cases s
    rfl
  · rw [h1, if_neg hscr, h1, if_neg hscr]

/-- A state produced from `s0` by one of the cancelling user operations of
`App.js`: restart, back to start, or a mode selection, each followed by the
React flush.  All three bump the turn token and clear the scheduled
timeout. -/
def invalidated (s0 s1 : Session) : Prop :=
  s1 = withFlush s0 (handleRestart s0) ∨
    s1 = withFlush s0 (handleBackToStart s0) ∨
    ∃ m, s1 = withFlush s0 (startGame s0 m)

/-- C3: when a COM move is scheduled under token `tok` in a reachable state
and the session is then invalidated by restart, back-to-start, or a mode
selection, the thinking flag is down, and however many further events are
processed, the stale callback body finds a newer token and performs no
mutation at all: the state is exactly what the event history left it. -/
theorem stale_callback_never_mutates (s0 : Session) (hr : Reachable s0)
    (tok : Nat) (hp : s0.pending = some tok) (s1 : Session)
    (hinv : invalidated s0 s1) :
    s1.isComThinking = false ∧
      ∀ es : List Event, fireBody (steps s1 es) tok = steps s1 es := by
  have hs := SessionInv_reachable s0 hr
  have htok : tok = s0.comTurnToken := hs.2.1 tok hp
  have hstate : s1.isComThinking = false ∧
      s1.comTurnToken = s0.comTurnToken + 1 := by
    rcases hinv with h | h | ⟨m, h⟩
    · rw [h, withFlush_handleRestart]
      exact ⟨rfl, rfl⟩
    · rw [h, withFlush_handleBackToStart]
      exact ⟨rfl, rfl⟩
    · rw [h, withFlush_startGame]
      exact ⟨rfl, rfl⟩
  refine ⟨hstate.1, ?_⟩
  intro es
  have hle := steps_token_le es s1
  rw [hstate.2] at hle
  apply fireBody_stale
  omega

theorem stale_callback_never_mutates_witness :
    Reachable ⟨Screen.game, some Mode.hvc,
        [Cell.X, Cell.empty, Cell.empty, Cell.empty, Cell.empty, Cell.empty,
          Cell.empty, Cell.empty, Cell.empty], Cell.O, true, 2, some 2⟩ ∧
      (⟨Screen.game, some Mode.hvc,
        [Cell.X, Cell.empty, Cell.empty, Cell.empty, Cell.empty, Cell.empty,
          Cell.empty, Cell.empty, Cell.empty], Cell.O, true, 2,
        some 2⟩ : Session).pending = some 2 ∧
      invalidated ⟨Screen.game, some Mode.hvc,
        [Cell.X, Cell.empty, Cell.empty, Cell.empty, Cell.empty, Cell.empty,
          Cell.empty, Cell.empty, Cell.empty], Cell.O, true, 2, some 2⟩
        ⟨Screen.game, some Mode.hvc, createEmptyBoard, Cell.X, false, 3, none⟩ ∧
      ((⟨Screen.game, some Mode.hvc, createEmptyBoard, Cell.X, false, 3,
          none⟩ : Session).isComThinking = false ∧
        ∀ es : List Event,
          fireBody (steps ⟨Screen.game, some Mode.hvc, createEmptyBoard,
            Cell.X, false, 3, none⟩ es) 2 =
          steps ⟨Screen.game, some Mode.hvc, createEmptyBoard, Cell.X, false,
            3, none⟩ es) :=
  ⟨⟨[Event.selectMode Mode.hvc, Event.click 0], by decide⟩, by decide,
    Or.inl (by decide),
    stale_callback_never_mutates
      ⟨Screen.game, some Mode.hvc,
        [Cell.X, Cell.empty, Cell.empty, Cell.empty, Cell.empty, Cell.empty,
          Cell.empty, Cell.empty, Cell.empty], Cell.O, true, 2, some 2⟩
      ⟨[Event.selectMode Mode.hvc, Event.click 0], by decide⟩ 2 (by decide)
      ⟨Screen.game, some Mode.hvc, createEmptyBoard, Cell.X, false, 3, none⟩
      (Or.inl (by decide))⟩
